import Mathlib

/-!
Verification of the translation orchestration engine of `venom-translator`
(`src/services/translationService.ts`).

The TypeScript class `TranslationService` is shallowly embedded below.
Strings are modelled as Lean `String` (a list of unicode scalar values);
JavaScript regular-expression operations are implemented as explicit
character-list scanners that reproduce the observable behaviour of the
concrete regexes appearing in the source.  Network calls (the three
translation providers and the remote language detector) are modelled by an
environment `Env`: each attempt yields `Except String (Option String)`,
where `.error` stands for a thrown exception (network failure), `.ok none`
for a provider that produced no usable text (malformed response), and
`.ok (some s)` for a candidate translation `s`.  The in-memory
`Map<string,string>` cache is modelled as an insertion-ordered association
list.  `JavaScript` float comparisons `count / total > 0.3` and
`size < len * 0.7` are modelled by the exact rational comparisons
`10 * count > 3 * total` and `10 * size < 7 * len`, which agree with the
double-precision evaluation for all realizable input sizes.
-/

namespace VenomTranslator

/-- Whitespace characters recognised by the embedding of the regex class
`\s` and of `String.prototype.trim` (the ASCII whitespace characters; the
inputs considered contain no exotic unicode spaces). -/
def isWs (c : Char) : Bool :=
  c = ' ' || c = '\t' || c = '\n' || c = '\r' || c = '\x0b' || c = '\x0c'

/-- Embedding of `toLowerCase` on a single character, covering the Latin and
Cyrillic letters that appear in the source's tables; identity elsewhere. -/
def charLower (c : Char) : Char :=
  if 'A' ≤ c && c ≤ 'Z' then Char.ofNat (c.toNat + 32)
  else if 'А' ≤ c && c ≤ 'Я' then Char.ofNat (c.toNat + 32)
  else if c = 'Ё' then 'ё'
  else c

/-- Embedding of `toUpperCase` on a single character, covering the Latin and
Cyrillic letters that appear in the source's tables; identity elsewhere. -/
def charUpper (c : Char) : Char :=
  if 'a' ≤ c && c ≤ 'z' then Char.ofNat (c.toNat - 32)
  else if 'а' ≤ c && c ≤ 'я' then Char.ofNat (c.toNat - 32)
  else if c = 'ё' then 'Ё'
  else c

def toLowerStr (s : String) : String :=
  String.mk (s.data.map charLower)

/-- `text.trim()` on the character list: strip leading and trailing
whitespace. -/
def trimChars (l : List Char) : List Char :=
  ((l.dropWhile isWs).reverse.dropWhile isWs).reverse

def trimStr (s : String) : String :=
  String.mk (trimChars s.data)

/-- The leading-whitespace run of a string, i.e. the match of `/^\s*/`. -/
def leadingWsStr (s : String) : String :=
  String.mk (s.data.takeWhile isWs)

/-- The trailing-whitespace run of a string, i.e. the match of `/\s*$/`. -/
def trailingWsStr (s : String) : String :=
  String.mk ((s.data.reverse.takeWhile isWs).reverse)

/-- `text.substring(0, n)`. -/
def takeStr (n : Nat) (s : String) : String :=
  String.mk (s.data.take n)

/-- Does `l` start with the pattern `p` (exact characters)? -/
def startsWithChars : List Char → List Char → Bool
  | [], _ => true
  | _ :: _, [] => false
  | p :: ps, c :: cs => p = c && startsWithChars ps cs

/-- Does `l` contain the pattern `needle` as a contiguous sublist? -/
def containsChars (needle : List Char) : List Char → Bool
  | [] => startsWithChars needle []
  | c :: cs => startsWithChars needle (c :: cs) || containsChars needle cs

/-- Case-insensitive substring test (embedding of `/pat/i.test(s)` for a
literal pattern). -/
def containsCI (pat : String) (s : String) : Bool :=
  containsChars (pat.data.map charLower) (s.data.map charLower)

/-- Case-insensitive "starts with" test (embedding of `/^pat/i.test(s)`). -/
def startsWithCI (pat : String) (s : String) : Bool :=
  startsWithChars (pat.data.map charLower) (s.data.map charLower)

/-! ### The translation cache

`private static translationCache = new Map<string, string>()` is modelled as
an insertion-ordered association list (oldest entry first), which is exactly
the iteration/insertion discipline of a JavaScript `Map`. -/

abbrev Cache := List (String × String)

/-- `Map.get`. -/
def cacheGet : Cache → String → Option String
  | [], _ => none
  | (k', v) :: rest, k => if k' = k then some v else cacheGet rest k

/-- `Map.set`: update in place if the key is present (keeping its
position), otherwise append at the end. -/
def mapSet : Cache → String → String → Cache
  | [], k, v => [(k, v)]
  | (k', v') :: rest, k, v =>
    if k' = k then (k', v) :: rest else (k', v') :: mapSet rest k v

/-- `Map.delete`: remove the (first) entry with the given key. -/
def mapDelete : Cache → String → Cache
  | [], _ => []
  | (k', v') :: rest, k => if k' = k then rest else (k', v') :: mapDelete rest k

/-- `cache.keys().next().value`: the first (oldest) key. -/
def cacheFirstKey : Cache → String
  | [] => ""
  | (k, _) :: _ => k

/-- The store-and-bound sequence of `translateText` (lines 70–77 of the
source): `set` the entry, then if the size exceeds 100 delete the
oldest-inserted key. -/
def cacheStore (c : Cache) (k v : String) : Cache :=
  let c1 := mapSet c k v
  if c1.length > 100 then mapDelete c1 (cacheFirstKey c1) else c1

/-- The cache key `` `${trimmedText}|${fromLang}|${toLang}` `` built from the
raw (pre-normalization) language codes. -/
def cacheKeyOf (text fromLang toLang : String) : String :=
  trimStr text ++ "|" ++ fromLang ++ "|" ++ toLang

/-! ### `str.split(/\s+/)`

JavaScript `split` keeps a leading empty piece when the string starts with a
separator and a trailing empty piece when it ends with one, and yields
`[""]` on the empty string. -/

mutual

def splitWsGo : List Char → List Char → List (List Char)
  | cur, [] => [cur.reverse]
  | cur, c :: rest =>
    if isWs c then cur.reverse :: splitWsSkip rest
    else splitWsGo (c :: cur) rest

def splitWsSkip : List Char → List (List Char)
  | [] => [[]]
  | c :: rest => if isWs c then splitWsSkip rest else splitWsGo [c] rest

end

def splitWsJS (l : List Char) : List (List Char) :=
  splitWsGo [] l

/-- Generic association-list lookup used for the language-code mapping and
the dictionary. -/
def lookupAssoc {α : Type} : List (String × α) → String → Option α
  | [], _ => none
  | (k', v) :: rest, k => if k' = k then some v else lookupAssoc rest k

/-- The alias table of `normalizeLanguageCode`. -/
def langMapping : List (String × String) :=
  [("auto", "auto"),
   ("ru", "ru"), ("russian", "ru"),
   ("en", "en"), ("english", "en"),
   ("es", "es"), ("spanish", "es"),
   ("fr", "fr"), ("french", "fr"),
   ("de", "de"), ("german", "de"),
   ("it", "it"), ("italian", "it"),
   ("pt", "pt"), ("portuguese", "pt"),
   ("zh", "zh"), ("chinese", "zh"), ("zh-cn", "zh"),
   ("ja", "ja"), ("japanese", "ja"),
   ("ko", "ko"), ("korean", "ko"),
   ("ar", "ar"), ("arabic", "ar"),
   ("hi", "hi"), ("hindi", "hi"),
   ("tr", "tr"), ("turkish", "tr"),
   ("nl", "nl"), ("dutch", "nl"),
   ("sv", "sv"), ("swedish", "sv"),
   ("da", "da"), ("danish", "da"),
   ("no", "no"), ("norwegian", "no"),
   ("fi", "fi"), ("finnish", "fi"),
   ("pl", "pl"), ("polish", "pl")]

/-- `normalizeLanguageCode`: `mapping[code.toLowerCase()] || code`. -/
def normalizeLanguageCode (code : String) : String :=
  match lookupAssoc langMapping (toLowerStr code) with
  | some v => v
  | none => code

/-! ### Dictionary fallback -/

/-- The static phrase table of `dictionaryTranslation`, transcribed verbatim
from the source. -/
def dictTable : List (String × List (String × String)) :=
  [("hello",
    [("ru", "привет"), ("es", "hola"), ("fr", "bonjour"), ("de", "hallo"),
     ("it", "ciao"), ("pt", "olá"), ("zh", "你好"), ("ja", "こんにちは"),
     ("ko", "안녕하세요"), ("ar", "مرحبا"), ("hi", "नमस्ते"), ("tr", "merhaba"),
     ("nl", "hallo"), ("sv", "hej"), ("da", "hej"), ("no", "hei"),
     ("fi", "hei"), ("pl", "cześć")]),
   ("world",
    [("ru", "мир"), ("es", "mundo"), ("fr", "monde"), ("de", "welt"),
     ("it", "mondo"), ("pt", "mundo"), ("zh", "世界"), ("ja", "世界"),
     ("ko", "세계"), ("ar", "عالم"), ("hi", "दुनिया"), ("tr", "dünya"),
     ("nl", "wereld"), ("sv", "värld"), ("da", "verden"), ("no", "verden"),
     ("fi", "maailma"), ("pl", "świat")]),
   ("goodbye",
    [("ru", "до свидания"), ("es", "adiós"), ("fr", "au revoir"),
     ("de", "auf wiedersehen"), ("it", "arrivederci"), ("pt", "tchau"),
     ("zh", "再见"), ("ja", "さようなら"), ("ko", "안녕히 가세요"), ("ar", "وداعا"),
     ("hi", "अलविदा"), ("tr", "hoşça kal"), ("nl", "tot ziens"),
     ("sv", "hej då"), ("da", "farvel"), ("no", "ha det"),
     ("fi", "näkemiin"), ("pl", "do widzenia")]),
   ("thank you",
    [("ru", "спасибо"), ("es", "gracias"), ("fr", "merci"), ("de", "danke"),
     ("it", "grazie"), ("pt", "obrigado"), ("zh", "谢谢"), ("ja", "ありがとう"),
     ("ko", "감사합니다"), ("ar", "شكرا"), ("hi", "धन्यवाद"),
     ("tr", "teşekkür ederim"), ("nl", "dank je"), ("sv", "tack"),
     ("da", "tak"), ("no", "takk"), ("fi", "kiitos"), ("pl", "dziękuję")]),
   ("yes",
    [("ru", "да"), ("es", "sí"), ("fr", "oui"), ("de", "ja"), ("it", "sì"),
     ("pt", "sim"), ("zh", "是"), ("ja", "はい"), ("ko", "네"), ("ar", "نعم"),
     ("hi", "हाँ"), ("tr", "evet"), ("nl", "ja"), ("sv", "ja"), ("da", "ja"),
     ("no", "ja"), ("fi", "kyllä"), ("pl", "tak")]),
   ("no",
    [("ru", "нет"), ("es", "no"), ("fr", "non"), ("de", "nein"), ("it", "no"),
     ("pt", "não"), ("zh", "不"), ("ja", "いいえ"), ("ko", "아니요"), ("ar", "لا"),
     ("hi", "नहीं"), ("tr", "hayır"), ("nl", "nee"), ("sv", "nej"),
     ("da", "nej"), ("no", "nei"), ("fi", "ei"), ("pl", "nie")]),
   ("please",
    [("ru", "пожалуйста"), ("es", "por favor"), ("fr", "s'il vous plaît"),
     ("de", "bitte"), ("it", "per favore"), ("pt", "por favor"), ("zh", "请"),
     ("ja", "お願いします"), ("ko", "제발"), ("ar", "من فضلك"), ("hi", "कृपया"),
     ("tr", "lütfen"), ("nl", "alsjeblieft"), ("sv", "snälla"), ("da", "tak"),
     ("no", "takk"), ("fi", "ole hyvä"), ("pl", "proszę")]),
   ("привет",
    [("en", "hello"), ("es", "hola"), ("fr", "bonjour"), ("de", "hallo"),
     ("it", "ciao"), ("pt", "olá"), ("zh", "你好"), ("ja", "こんにちは"),
     ("ko", "안녕하세요"), ("ar", "مرحبا"), ("hi", "नमस्ते"), ("tr", "merhaba"),
     ("nl", "hallo"), ("sv", "hej"), ("da", "hej"), ("no", "hei"),
     ("fi", "hei"), ("pl", "cześć")]),
   ("мир",
    [("en", "world"), ("es", "mundo"), ("fr", "monde"), ("de", "welt"),
     ("it", "mondo"), ("pt", "mundo"), ("zh", "世界"), ("ja", "世界"),
     ("ko", "세계"), ("ar", "عالم"), ("hi", "दुनिया"), ("tr", "dünya"),
     ("nl", "wereld"), ("sv", "värld"), ("da", "verden"), ("no", "verden"),
     ("fi", "maailma"), ("pl", "świat")]),
   ("спасибо",
    [("en", "thank you"), ("es", "gracias"), ("fr", "merci"), ("de", "danke"),
     ("it", "grazie"), ("pt", "obrigado"), ("zh", "谢谢"), ("ja", "ありがとう"),
     ("ko", "감사합니다"), ("ar", "شكرا"), ("hi", "धन्यवाद"),
     ("tr", "teşekkür ederim"), ("nl", "dank je"), ("sv", "tack"),
     ("da", "tak"), ("no", "takk"), ("fi", "kiitos"), ("pl", "dziękuję")]),
   ("да",
    [("en", "yes"), ("es", "sí"), ("fr", "oui"), ("de", "ja"), ("it", "sì"),
     ("pt", "sim"), ("zh", "是"), ("ja", "はい"), ("ko", "네"), ("ar", "نعم"),
     ("hi", "हाँ"), ("tr", "evet"), ("nl", "ja"), ("sv", "ja"), ("da", "ja"),
     ("no", "ja"), ("fi", "kyllä"), ("pl", "tak")]),
   ("нет",
    [("en", "no"), ("es", "no"), ("fr", "non"), ("de", "nein"), ("it", "no"),
     ("pt", "não"), ("zh", "不"), ("ja", "いいえ"), ("ko", "아니요"), ("ar", "لا"),
     ("hi", "नहीं"), ("tr", "hayır"), ("nl", "nee"), ("sv", "nej"),
     ("da", "nej"), ("no", "nei"), ("fi", "ei"), ("pl", "nie")])]

/-- `translations[lowerText]?.[toLang]`. -/
def dictLookup (phrase lang : String) : Option String :=
  match lookupAssoc dictTable phrase with
  | some row => lookupAssoc row lang
  | none => none

/-- `translation.charAt(0).toUpperCase() + translation.slice(1)`. -/
def capFirstStr (t : String) : String :=
  match t.data with
  | [] => t
  | c :: rest => String.mk (charUpper c :: rest)

/-- `dictionaryTranslation`: exact case-insensitive lookup of the trimmed
text; on hit reapply the original's leading capitalization, on miss return
the text unchanged. -/
def dictionaryTranslation (text fromLang toLang : String) : String :=
  let lowerText := trimStr (toLowerStr text)
  match dictLookup lowerText toLang with
  | some translation =>
    if translation ≠ "" then
      match text.data with
      | c :: _ => if charUpper c = c then capFirstStr translation else translation
      | [] => translation
    else text
  | none => text

/-! ### Translation validator -/

/-- `/^[A-Z][a-z]*$/.test(original)`. -/
def isCapitalizedWord (s : String) : Bool :=
  match s.data with
  | [] => false
  | c :: rest =>
    ('A' ≤ c && c ≤ 'Z') && rest.all (fun d => 'a' ≤ d && d ≤ 'z')

/-- `/^\d+$/.test(original)`. -/
def isNumericStr (s : String) : Bool :=
  !s.data.isEmpty && s.data.all (fun d => '0' ≤ d && d ≤ '9')

/-- The provider-garbage marker patterns of `isValidTranslation`. -/
def hasGarbage (t : String) : Bool :=
  containsCI "MYMEMORY WARNING" t ||
  containsCI "[TRANSLATION ERROR]" t ||
  containsCI "[UNTRANSLATED]" t ||
  startsWithCI "ERROR:" t ||
  startsWithCI "QUOTA EXCEEDED" t

/-- `isValidTranslation(translation, original, fromLang, toLang)`.  A `none`
candidate models the `null` return of a provider helper. -/
def isValidTranslation (translation : Option String) (original fromLang toLang : String) : Bool :=
  match translation with
  | none => false
  | some tr =>
    if trimStr tr = "" then false
    else
      let cleanTranslation := toLowerStr (trimStr tr)
      let cleanOriginal := toLowerStr (trimStr original)
      if cleanTranslation = cleanOriginal then
        original.length ≤ 3 || isCapitalizedWord original || isNumericStr original
      else
        let words := (splitWsJS cleanTranslation.data).map String.mk
        let uniqueCount := words.dedup.length
        if words.length > 3 && 10 * uniqueCount < 7 * words.length then false
        else if hasGarbage tr then false
        else true

/-! ### Sentence splitting (`splitIntoSentences`)

The abbreviation regex
`/(?:Mr|Mrs|Ms|Dr|Prof|Inc|Ltd|Co|Corp|etc|vs|i\.e|e\.g|a\.m|p\.m|U\.S|U\.K|Ph\.D|B\.A|M\.A)\./gi`
is embedded as a left-to-right scanner; at each position it tries the
alternatives in order (case-insensitively) followed by a literal `.`, and on
a match applies `match.replace('.', '<!DOT!>')`, which masks only the FIRST
dot of the matched text. -/

/-- The alternatives of the abbreviation regex, lowercased, in order. -/
def abbrevOrder : List (List Char) :=
  ["mr".data, "mrs".data, "ms".data, "dr".data, "prof".data, "inc".data,
   "ltd".data, "co".data, "corp".data, "etc".data, "vs".data, "i.e".data,
   "e.g".data, "a.m".data, "p.m".data, "u.s".data, "u.k".data, "ph.d".data,
   "b.a".data, "m.a".data]

def dotMarker : List Char := "<!DOT!>".data

/-- Case-insensitive match of an abbreviation pattern against the head of
the text. -/
def matchesAbbrevChars : List Char → List Char → Bool
  | [], _ => true
  | _ :: _, [] => false
  | p :: ps, c :: cs => p = charLower c && matchesAbbrevChars ps cs

/-- Length of the abbreviation match (alternative plus the trailing dot) at
the head of `l`, if any; alternatives are tried in regex order. -/
def matchAbbrevAt (l : List Char) : Option Nat :=
  abbrevOrder.findSome? fun a =>
    if matchesAbbrevChars a l then
      match l.drop a.length with
      | '.' :: _ => some (a.length + 1)
      | _ => none
    else none

/-- `match.replace('.', '<!DOT!>')`: replace the first dot only. -/
def replaceFirstDot : List Char → List Char
  | [] => []
  | c :: rest => if c = '.' then dotMarker ++ rest else c :: replaceFirstDot rest

/-- The global abbreviation replacement (fuel-driven scanner; fuel
`length + 1` always suffices since every step consumes at least one
character). -/
def maskAbbrevGo : Nat → List Char → List Char
  | 0, l => l
  | _ + 1, [] => []
  | fuel + 1, c :: rest =>
    match matchAbbrevAt (c :: rest) with
    | some n => replaceFirstDot ((c :: rest).take n) ++ maskAbbrevGo fuel ((c :: rest).drop n)
    | none => c :: maskAbbrevGo fuel rest

/-- The characters of the class `[.!?]`. -/
def isPunctSep (c : Char) : Bool :=
  c = '.' || c = '!' || c = '?'

/-- The characters of the class `[A-ZА-Я]` (no `/i` flag in the sentence
split regex). -/
def isUpperAZ (c : Char) : Bool :=
  ('A' ≤ c && c ≤ 'Z') || ('А' ≤ c && c ≤ 'Я')

/-- The lookahead `(?=\s+[A-ZА-Я]|\s*$)` applied to the text following a
punctuation run. -/
def sentLookahead (l : List Char) : Bool :=
  match l.dropWhile isWs with
  | [] => true
  | u :: _ => !(l.takeWhile isWs).isEmpty && isUpperAZ u

/-- `split(/[.!?]+(?=\s+[A-ZА-Я]|\s*$)/)`: a maximal `[.!?]+` run is a
separator exactly when the lookahead holds after it (shortening the greedy
run cannot help, because the character right after a shortened run is again
punctuation, failing the lookahead). -/
def sentSplitGo : Nat → List Char → List Char → List (List Char)
  | 0, cur, _ => [cur.reverse]
  | _ + 1, cur, [] => [cur.reverse]
  | fuel + 1, cur, c :: rest =>
    if isPunctSep c then
      let run := (c :: rest).takeWhile isPunctSep
      let after := (c :: rest).dropWhile isPunctSep
      if sentLookahead after then cur.reverse :: sentSplitGo fuel [] after
      else sentSplitGo fuel (run.reverse ++ cur) after
    else sentSplitGo fuel (c :: cur) rest

/-- `replace(/<!DOT!>/g, '.')`. -/
def unmaskDotsGo : Nat → List Char → List Char
  | 0, l => l
  | _ + 1, [] => []
  | fuel + 1, c :: rest =>
    if startsWithChars dotMarker (c :: rest) then
      '.' :: unmaskDotsGo fuel ((c :: rest).drop dotMarker.length)
    else c :: unmaskDotsGo fuel rest

/-- `splitIntoSentences`: mask abbreviation dots, split on sentence-ending
punctuation (with lookahead), drop blank pieces, unmask and trim. -/
def splitIntoSentences (text : String) : List String :=
  let masked := maskAbbrevGo (text.data.length + 1) text.data
  let pieces := sentSplitGo (masked.length + 1) [] masked
  let kept := pieces.filter fun p => !(trimChars p).isEmpty
  kept.map fun p => String.mk (trimChars (unmaskDotsGo (p.length + 1) p))

/-! ### Paragraph splitting and chunking (`intelligentTextSplit`) -/

/-- The index of the last newline in a list, if any. -/
def lastNewlineIdx (l : List Char) : Option Nat :=
  match l.reverse.findIdx? (· = '\n') with
  | some k => some (l.length - 1 - k)
  | none => none

/-- `split(/\n\s*\n/)`: at a newline, the greedy `\s*` extends the match to
the LAST newline inside the following whitespace run; if that run contains
no newline there is no match at this position. -/
def splitParasGo : Nat → List Char → List Char → List (List Char)
  | 0, cur, _ => [cur.reverse]
  | _ + 1, cur, [] => [cur.reverse]
  | fuel + 1, cur, c :: rest =>
    if c = '\n' then
      match lastNewlineIdx (rest.takeWhile isWs) with
      | some j => cur.reverse :: splitParasGo fuel [] (rest.drop (j + 1))
      | none => splitParasGo fuel (c :: cur) rest
    else splitParasGo fuel (c :: cur) rest

/-- `MAX_CHUNK_SIZE`. -/
def MAX_CHUNK_SIZE : Nat := 500

/-- The greedy sentence-packing loop of `intelligentTextSplit` for an
over-budget paragraph. -/
def packSentences (chunks : List String) (sentences : List String) : List String :=
  let packed := sentences.foldl
    (fun (pr : List String × String) s =>
      if (pr.2 ++ s).length ≤ MAX_CHUNK_SIZE then (pr.1, pr.2 ++ s)
      else if pr.2 ≠ "" then (pr.1 ++ [trimStr pr.2], s)
      else (pr.1, s))
    (chunks, "")
  if packed.2 ≠ "" then packed.1 ++ [trimStr packed.2] else packed.1

/-- `intelligentTextSplit`: short texts stay whole; longer texts are split
on blank-line paragraph boundaries, and over-budget paragraphs are split
into sentences packed greedily into chunks. -/
def intelligentTextSplit (text : String) : List String :=
  if text.length ≤ MAX_CHUNK_SIZE then [text]
  else
    let paragraphs := (splitParasGo (text.data.length + 1) [] text.data).map String.mk
    let chunks := paragraphs.foldl
      (fun chunks p =>
        if p.length ≤ MAX_CHUNK_SIZE then chunks ++ [p]
        else packSentences chunks (splitIntoSentences p))
      []
    if chunks ≠ [] then chunks else [text]

/-! ### Postprocessing (`removeDuplicateSentences`, `fixCapitalization`,
`fixPunctuation`) and reassembly (`reconstructText`, `restoreFormatting`) -/

/- `split(/([.!?]+)/)` with the capture group kept: the result alternates
text pieces and punctuation runs, starting and ending with a (possibly
empty) text piece. -/

mutual

def splitPunctText : List Char → List Char → List (List Char)
  | cur, [] => [cur.reverse]
  | cur, c :: rest =>
    if isPunctSep c then cur.reverse :: splitPunctRun [c] rest
    else splitPunctText (c :: cur) rest

def splitPunctRun : List Char → List Char → List (List Char)
  | run, [] => [run.reverse, []]
  | run, c :: rest =>
    if isPunctSep c then splitPunctRun (c :: run) rest
    else run.reverse :: splitPunctText [c] rest

end

/- `replace(/\s+/g, ' ')`: collapse every whitespace run to one space. -/

mutual

def wsAllGo : List Char → List Char
  | [] => []
  | c :: rest => if isWs c then ' ' :: wsAllSkip rest else c :: wsAllGo rest

def wsAllSkip : List Char → List Char
  | [] => []
  | c :: rest => if isWs c then wsAllSkip rest else c :: wsAllGo rest

end

def wsAllToSpace (s : String) : String :=
  String.mk (wsAllGo s.data)

/-- The pair loop of `removeDuplicateSentences`: the filtered pieces are
consumed two at a time (sentence, punctuation); a sentence whose normalized
form was already seen is dropped together with its punctuation. -/
def rdsLoop : List String → List String → List String
  | [], _ => []
  | [s0], seen =>
    let sentence := trimStr s0
    if sentence ≠ "" then
      let normalized := wsAllToSpace (toLowerStr sentence)
      if seen.contains normalized then [] else [sentence]
    else []
  | s0 :: p :: rest, seen =>
    let sentence := trimStr s0
    if sentence ≠ "" then
      let normalized := wsAllToSpace (toLowerStr sentence)
      if seen.contains normalized then rdsLoop rest seen
      else (sentence ++ p) :: rdsLoop rest (normalized :: seen)
    else rdsLoop rest seen

/-- `removeDuplicateSentences`. -/
def removeDuplicateSentences (text : String) : String :=
  let sentences := (splitPunctText [] text.data).map String.mk
  let kept := sentences.filter fun s => trimStr s ≠ ""
  let cleanSentences := rdsLoop kept []
  trimStr (wsAllToSpace (String.intercalate " " cleanSentences))

/- `split(/([.!?]+\s*)/)` with the capture kept: a separator is a maximal
`[.!?]+` run together with the following whitespace run. -/

mutual

def splitCapText : List Char → List Char → List (List Char)
  | cur, [] => [cur.reverse]
  | cur, c :: rest =>
    if isPunctSep c then cur.reverse :: splitCapRun [c] rest
    else splitCapText (c :: cur) rest

def splitCapRun : List Char → List Char → List (List Char)
  | run, [] => [run.reverse, []]
  | run, c :: rest =>
    if isPunctSep c then splitCapRun (c :: run) rest
    else if isWs c then splitCapWs (c :: run) rest
    else run.reverse :: splitCapText [c] rest

def splitCapWs : List Char → List Char → List (List Char)
  | run, [] => [run.reverse, []]
  | run, c :: rest =>
    if isWs c then splitCapWs (c :: run) rest
    else if isPunctSep c then run.reverse :: [] :: splitCapRun [c] rest
    else run.reverse :: splitCapText [c] rest

end

/-- The characters of the class `[a-zа-яё]` under the `/i` flag. -/
def isLetterClassCI (c : Char) : Bool :=
  ('a' ≤ c && c ≤ 'z') || ('A' ≤ c && c ≤ 'Z') ||
  ('а' ≤ c && c ≤ 'я') || ('А' ≤ c && c ≤ 'Я') || c = 'ё' || c = 'Ё'

/-- `sentence.replace(/^\s*([a-zа-яё])/i, m => m.replace(letter, letter.toUpperCase()))`. -/
def capFirstLetterPiece (s : String) : String :=
  let ws := s.data.takeWhile isWs
  match s.data.dropWhile isWs with
  | [] => s
  | c :: rest => if isLetterClassCI c then String.mk (ws ++ charUpper c :: rest) else s

/-- The even-index (text-piece) traversal of `fixCapitalization`. -/
def capEvenIdx : List String → Bool → List String
  | [], _ => []
  | s :: rest, true =>
    (if s ≠ "" && trimStr s ≠ "" then capFirstLetterPiece s else s) :: capEvenIdx rest false
  | s :: rest, false => s :: capEvenIdx rest true

/-- `fixCapitalization`. -/
def fixCapitalization (text toLang : String) : String :=
  String.join (capEvenIdx ((splitCapText [] text.data).map String.mk) true)

/-- The characters of the class `[.,:;!?]`. -/
def isPunct6 (c : Char) : Bool :=
  c = '.' || c = ',' || c = ':' || c = ';' || c = '!' || c = '?'

/- `replace(/\s+([.,:;!?])/g, '$1')`: drop a whitespace run immediately
preceding a punctuation character. -/

mutual

def rwbpGo : List Char → List Char
  | [] => []
  | c :: rest => if isWs c then rwbpWs [c] rest else c :: rwbpGo rest

def rwbpWs : List Char → List Char → List Char
  | run, [] => run.reverse
  | run, c :: rest =>
    if isWs c then rwbpWs (c :: run) rest
    else if isPunct6 c then c :: rwbpGo rest
    else run.reverse ++ c :: rwbpGo rest

end

/-- `replace(/([.!?])\s*([a-zа-яё])/gi, '$1 $2')`: exactly one space between
a sentence terminator and a following letter (fuel-driven scanner). -/
def asatGo : Nat → List Char → List Char
  | 0, l => l
  | _ + 1, [] => []
  | fuel + 1, c :: rest =>
    if isPunctSep c then
      match rest.dropWhile isWs with
      | d :: rest2 =>
        if isLetterClassCI d then c :: ' ' :: d :: asatGo fuel rest2
        else c :: asatGo fuel rest
      | [] => c :: asatGo fuel rest
    else c :: asatGo fuel rest

/- `replace(/\s{2,}/g, ' ')`: collapse whitespace runs of length at least
two to a single space (a lone whitespace character is kept as is). -/

mutual

def cwrGo : List Char → List Char
  | [] => []
  | c :: rest => if isWs c then cwrRun [c] rest else c :: cwrGo rest

def cwrRun : List Char → List Char → List Char
  | run, [] => if run.length ≥ 2 then [' '] else run.reverse
  | run, c :: rest =>
    if isWs c then cwrRun (c :: run) rest
    else (if run.length ≥ 2 then [' '] else run.reverse) ++ c :: cwrGo rest

end

/-- `fixPunctuation`. -/
def fixPunctuation (text toLang : String) : String :=
  let a := rwbpGo text.data
  let b := asatGo (a.length + 1) a
  trimStr (String.mk (cwrGo b))

/-- `postProcessTranslation`. -/
def postProcessTranslation (text fromLang toLang : String) : String :=
  fixPunctuation (fixCapitalization (removeDuplicateSentences text) toLang) toLang

/- `replace(/\n{3,}/g, '\n\n')`: collapse runs of three or more newlines to
exactly two. -/

mutual

def cnlGo : List Char → List Char
  | [] => []
  | c :: rest => if c = '\n' then cnlRun 1 rest else c :: cnlGo rest

def cnlRun : Nat → List Char → List Char
  | n, [] => List.replicate (if n ≥ 3 then 2 else n) '\n'
  | n, c :: rest =>
    if c = '\n' then cnlRun (n + 1) rest
    else List.replicate (if n ≥ 3 then 2 else n) '\n' ++ c :: cnlGo rest

end

/-- `reconstructText`: keep whitespace-only chunks verbatim, take the
translated chunk otherwise (falling back to the original when the
translated entry is missing or empty), join with blank lines and collapse
newline runs. -/
def reconstructText (originalChunks translatedChunks : List String) : String :=
  let pieces := (List.range originalChunks.length).map fun i =>
    let original := originalChunks.getD i ""
    let translated :=
      match translatedChunks.get? i with
      | some t => if t = "" then original else t
      | none => original
    if trimStr original = "" then original else translated
  String.mk (cnlGo (String.intercalate "\n\n" pieces).data)

/-- `restoreFormatting`: reattach the original's leading and trailing
whitespace around the trimmed translation. -/
def restoreFormatting (original translated : String) : String :=
  leadingWsStr original ++ trimStr translated ++ trailingWsStr original

/-! ### Local language detection (`detectLanguageLocally`) -/

/-- `text.replace(/\s/g, '').length`: the number of non-whitespace
characters. -/
def totalNonWs (text : String) : Nat :=
  (text.data.filter fun c => !isWs c).length

/-- Characters matched by `/[а-яё]/gi`. -/
def isCyrillicChar (c : Char) : Bool :=
  ('а' ≤ c && c ≤ 'я') || ('А' ≤ c && c ≤ 'Я') || c = 'ё' || c = 'Ё'

/-- Characters matched by `/[a-z]/gi`. -/
def isLatinChar (c : Char) : Bool :=
  ('a' ≤ c && c ≤ 'z') || ('A' ≤ c && c ≤ 'Z')

/-- Characters matched by `/[一-龯]/gi` (the CJK range U+4E00–U+9FAF). -/
def isChineseChar (c : Char) : Bool :=
  '一' ≤ c && c ≤ '龯'

/-- Characters matched by `/[ひらがなカタカナ]/gi`.  Note that this regex is a
character CLASS over the seven distinct literal characters ひ ら が な カ タ ナ,
not the Hiragana/Katakana ranges. -/
def isJapaneseClassChar (c : Char) : Bool :=
  c = 'ひ' || c = 'ら' || c = 'が' || c = 'な' || c = 'カ' || c = 'タ' || c = 'ナ'

/-- Characters matched by `/[가-힣]/gi` (Hangul syllables). -/
def isKoreanChar (c : Char) : Bool :=
  '가' ≤ c && c ≤ '힣'

/-- Characters matched by `/[ء-ي]/gi` (the Arabic range U+0621–U+064A). -/
def isArabicChar (c : Char) : Bool :=
  'ء' ≤ c && c ≤ 'ي'

def countCyr (text : String) : Nat := (text.data.filter isCyrillicChar).length
def countLatin (text : String) : Nat := (text.data.filter isLatinChar).length
def countChinese (text : String) : Nat := (text.data.filter isChineseChar).length
def countJap (text : String) : Nat := (text.data.filter isJapaneseClassChar).length
def countKor (text : String) : Nat := (text.data.filter isKoreanChar).length
def countArab (text : String) : Nat := (text.data.filter isArabicChar).length

/-- The diacritic marker tests (`languageMarkers`), in object order.  Each
character class is closed under the `/i` flag (adding the uppercase forms
that JavaScript canonicalization reaches). -/
def markerDe (c : Char) : Bool :=
  c = 'ä' || c = 'ö' || c = 'ü' || c = 'ß' || c = 'Ä' || c = 'Ö' || c = 'Ü'

def markerFr (c : Char) : Bool :=
  c = 'à' || c = 'â' || c = 'ä' || c = 'é' || c = 'è' || c = 'ê' || c = 'ë' ||
  c = 'ï' || c = 'î' || c = 'ô' || c = 'ö' || c = 'ù' || c = 'û' || c = 'ü' ||
  c = 'ÿ' || c = 'ç' ||
  c = 'À' || c = 'Â' || c = 'Ä' || c = 'É' || c = 'È' || c = 'Ê' || c = 'Ë' ||
  c = 'Ï' || c = 'Î' || c = 'Ô' || c = 'Ö' || c = 'Ù' || c = 'Û' || c = 'Ü' ||
  c = 'Ÿ' || c = 'Ç'

def markerEs (c : Char) : Bool :=
  c = 'á' || c = 'é' || c = 'í' || c = 'ó' || c = 'ú' || c = 'ñ' || c = 'ü' ||
  c = '¿' || c = '¡' ||
  c = 'Á' || c = 'É' || c = 'Í' || c = 'Ó' || c = 'Ú' || c = 'Ñ' || c = 'Ü'

def markerIt (c : Char) : Bool :=
  c = 'à' || c = 'è' || c = 'é' || c = 'ì' || c = 'í' || c = 'î' || c = 'ò' ||
  c = 'ó' || c = 'ù' ||
  c = 'À' || c = 'È' || c = 'É' || c = 'Ì' || c = 'Í' || c = 'Î' || c = 'Ò' ||
  c = 'Ó' || c = 'Ù'

def markerPt (c : Char) : Bool :=
  c = 'ã' || c = 'ç' || c = 'õ' || c = 'Ã' || c = 'Ç' || c = 'Õ'

def markerPl (c : Char) : Bool :=
  c = 'ą' || c = 'ć' || c = 'ę' || c = 'ł' || c = 'ń' || c = 'ó' || c = 'ś' ||
  c = 'ź' || c = 'ż' ||
  c = 'Ą' || c = 'Ć' || c = 'Ę' || c = 'Ł' || c = 'Ń' || c = 'Ó' || c = 'Ś' ||
  c = 'Ź' || c = 'Ż'

def markerTr (c : Char) : Bool :=
  c = 'ç' || c = 'ğ' || c = 'ı' || c = 'ö' || c = 'ş' || c = 'ü' ||
  c = 'Ç' || c = 'Ğ' || c = 'Ö' || c = 'Ş' || c = 'Ü'

def languageMarkers : List (String × (Char → Bool)) :=
  [("de", markerDe), ("fr", markerFr), ("es", markerEs), ("it", markerIt),
   ("pt", markerPt), ("pl", markerPl), ("tr", markerTr)]

/-- The first language (in object order) whose marker class occurs in the
text, if any. -/
def findMarker (text : String) : Option String :=
  languageMarkers.findSome? fun p =>
    if text.data.any p.2 then some p.1 else none

/-- The `commonWords` stop-word lists, in object order, transcribed verbatim
from the source. -/
def commonWords : List (String × List String) :=
  [("ru",
    ["и", "в", "не", "на", "я", "быть", "он", "с", "что", "а", "по", "это",
     "она", "этот", "к", "но", "они", "мы", "как", "из", "за", "от", "до",
     "при", "для", "или", "уже", "если", "время", "более", "нет", "так",
     "вы", "сказать", "этого", "может", "после", "слово", "день", "его",
     "новый", "два", "наш", "том", "дело", "жизнь"]),
   ("en",
    ["the", "be", "to", "of", "and", "a", "in", "that", "have", "i", "it",
     "for", "not", "on", "with", "he", "as", "you", "do", "at", "this",
     "but", "his", "by", "from", "they", "she", "or", "an", "will", "my",
     "one", "all", "would", "there", "their", "what", "so", "up", "out",
     "if", "about", "who", "get", "which", "go", "me", "when", "make",
     "can", "like", "time", "no", "just", "him", "know", "take", "people",
     "into", "year", "your", "good", "some", "could", "them", "see",
     "other", "than", "then", "now", "look", "only", "come", "its", "over",
     "think", "also", "back", "after", "use", "two", "how", "our", "work",
     "first", "well", "way", "even", "new", "want", "because", "any",
     "these", "give", "day", "most", "us"]),
   ("es",
    ["el", "la", "de", "que", "y", "a", "en", "un", "ser", "se", "no",
     "te", "lo", "le", "da", "su", "por", "son", "con", "para", "una",
     "del", "los", "al", "todo", "está", "muy", "fue", "han", "era",
     "sobre", "mi", "está", "entre", "durante", "un", "antes", "llegar",
     "luego", "mucho", "haber", "qué", "año", "dos", "querer", "entre",
     "así", "primero", "desde", "grande", "eso", "ni", "nos", "llegar",
     "pasar", "tiempo", "ella", "sí", "día", "uno", "bien", "poco",
     "deber", "entonces", "poner", "aquí", "parecer", "fin", "tanto",
     "donde", "saber", "nada", "cada", "menos", "dar", "cuenta", "cuando",
     "muy", "sin", "vez", "mujer", "vida", "igual", "momento", "grupo",
     "agua", "realizar", "guerra", "historia", "forma", "esperar",
     "miembro", "parte"]),
   ("fr",
    ["le", "de", "et", "à", "un", "il", "être", "et", "en", "avoir",
     "que", "pour", "dans", "ce", "son", "une", "sur", "avec", "ne", "se",
     "pas", "tout", "plus", "par", "grand", "ce", "le", "il", "avoir",
     "son", "que", "se", "qui", "en", "vous", "sur", "avec", "ne", "y",
     "aller", "en", "savoir", "me", "je", "voir", "en", "au", "du", "te",
     "donner", "légal", "lui", "ou", "là", "marché", "les", "mais", "à",
     "elle", "deux", "même", "faire", "dire", "sous", "old", "mot"]),
   ("de",
    ["der", "die", "und", "in", "den", "von", "zu", "das", "mit", "sich",
     "des", "auf", "für", "ist", "im", "dem", "nicht", "ein", "eine",
     "als", "auch", "nach", "wird", "an", "werden", "aus", "er", "hat",
     "daß", "sie", "zu", "ein", "oder", "aber", "können", "haben", "wir",
     "was", "werden", "sein", "einen", "welche", "sind", "noch", "wie",
     "einem", "über", "einen", "so", "zum", "war", "haben", "nur", "oder",
     "auch", "es", "soll", "werden", "bei", "ist", "des", "sich", "ein",
     "diesem", "einer", "er", "auch", "an", "werden", "aus", "zu", "im",
     "sie", "einem", "mit", "nach", "einer", "der", "bei"])]

/-- The tokenization of the stop-word stage:
`lowerText.split(/\s+/).filter(w => w.length > 1)`. -/
def wordsOf (lowerText : String) : List String :=
  ((splitWsJS lowerText.data).map String.mk).filter fun w => w.length > 1

/-- The number of words of `words` contained in `wordList`. -/
def countWordMatches (wordList : List String) (words : List String) : Nat :=
  (words.filter fun w => wordList.contains w).length

/-- The stop-word scoring loop.  Every language's score has the same
denominator `min(words.length, 20)`, so the float comparison
`score > maxMatches` is equivalent to comparing raw match counts; the
accumulator keeps the best match count and the detected language. -/
def wordStageDetect (lowerText : String) : String :=
  (commonWords.foldl
    (fun (acc : Nat × String) p =>
      if countWordMatches p.2 (wordsOf lowerText) > acc.1 then
        (countWordMatches p.2 (wordsOf lowerText), p.1)
      else acc)
    (0, "en")).2

/-- `detectLanguageLocally`: script-ratio stage (the loop over
`scriptCounts` in object order — the `latin` entry has no `switch` case and
never returns), then diacritic markers, then stop words.  The float
comparison `count / totalChars > 0.3` is embedded as
`10 * count > 3 * totalChars`. -/
def detectLanguageLocally (text : String) : String :=
  let lowerText := toLowerStr text
  let totalChars := totalNonWs text
  if totalChars = 0 then "en"
  else if 10 * countCyr text > 3 * totalChars then "ru"
  else if 10 * countChinese text > 3 * totalChars then "zh"
  else if 10 * countJap text > 3 * totalChars then "ja"
  else if 10 * countKor text > 3 * totalChars then "ko"
  else if 10 * countArab text > 3 * totalChars then "ar"
  else
    match findMarker text with
    | some lang => lang
    | none => wordStageDetect lowerText

/-! ### The external environment and the provider fallback chain -/

/-- The outcomes of the external calls a `translateText` invocation can
make.  `provider i j` is the outcome of method `j` (0 = Google,
1 = MyMemory, 2 = LibreTranslate) for the `i`-th chunk: `.error` models a
thrown exception, `.ok none` a `null` return (request failed or response
malformed), `.ok (some s)` a candidate translation (after the provider
helper's own response cleanup).  `detect` is the outcome of the remote
detection request: `.ok (some code)` models a response carrying a truthy
detected-language field. -/
structure Env where
  provider : Nat → Nat → Except String (Option String)
  detect : Except String (Option String)

/-- The environment in which every network request fails. -/
def allFailEnv : Env :=
  { provider := fun _ _ => .error "network", detect := .error "network" }

/-- `detectLanguage`: try the remote endpoint on the first 200 characters of
the trimmed text; normalize a usable answer; otherwise fall back to the
local heuristic. -/
def detectLanguage (env : Env) (text : String) : String :=
  let trimmedText := takeStr 200 (trimStr text)
  match env.detect with
  | .ok (some raw) =>
    let detectedLang := normalizeLanguageCode raw
    if detectedLang ≠ "auto" then detectedLang
    else detectLanguageLocally trimmedText
  | _ => detectLanguageLocally trimmedText

/-- The provider loop of `translateChunk` over the outcome list: a thrown
outcome is caught and skipped, an invalid candidate is skipped, the first
valid candidate is returned; when all three methods are exhausted the
dictionary fallback answers.  The `Nat` component counts the provider
methods consulted. -/
def translateChunkGo : List (Except String (Option String)) → String → String → String → Nat → String × Nat
  | [], text, fromLang, toLang, n => (dictionaryTranslation text fromLang toLang, n)
  | o :: rest, text, fromLang, toLang, n =>
    match o with
    | .error _ => translateChunkGo rest text fromLang toLang (n + 1)
    | .ok r =>
      if isValidTranslation r text fromLang toLang then (r.getD "", n + 1)
      else translateChunkGo rest text fromLang toLang (n + 1)

/-- `translateChunk` applied to a given list of provider outcomes. -/
def translateChunk (outs : List (Except String (Option String))) (text fromLang toLang : String) : String × Nat :=
  translateChunkGo outs text fromLang toLang 0

/-- The three provider outcomes the environment supplies for chunk `i`. -/
def envOuts (env : Env) (i : Nat) : List (Except String (Option String)) :=
  [env.provider i 0, env.provider i 1, env.provider i 2]

/-- The chunk loop of `translateText`: whitespace-only chunks are passed
through untranslated; other chunks are trimmed and sent through the
fallback chain.  Returns the translated chunks and the number of provider
calls. -/
def processChunksGo (env : Env) : Nat → List String → String → String → List String × Nat
  | _, [], _, _ => ([], 0)
  | i, chunk :: rest, fromLang, toLang =>
    if trimStr chunk = "" then
      let pr := processChunksGo env (i + 1) rest fromLang toLang
      (chunk :: pr.1, pr.2)
    else
      let cr := translateChunk (envOuts env i) (trimStr chunk) fromLang toLang
      let pr := processChunksGo env (i + 1) rest fromLang toLang
      (cr.1 :: pr.1, cr.2 + pr.2)

/-- The main translation path of `translateText` (after the guards, cache
lookup and language detection): split, translate chunk by chunk,
reconstruct, postprocess, store in the cache with FIFO bounding, restore
the original formatting. -/
def translateMain (env : Env) (cache : Cache) (text fromLang toLang detectedFrom : String) (base : Nat) : String × Cache × Nat :=
  let nTo := normalizeLanguageCode toLang
  let chunks := intelligentTextSplit (trimStr text)
  let pr := processChunksGo env 0 chunks detectedFrom nTo
  let finalResult := postProcessTranslation (reconstructText chunks pr.1) detectedFrom nTo
  (restoreFormatting text finalResult,
   cacheStore cache (cacheKeyOf text fromLang toLang) finalResult,
   base + pr.2)

/-- `translateText(text, fromLang, toLang)` against environment `env` and
cache state `cache`.  Returns the result string, the cache after the call
and the number of external calls (detector plus provider methods)
performed. -/
def translateText (env : Env) (cache : Cache) (text fromLang toLang : String) : String × Cache × Nat :=
  if fromLang = toLang ∧ fromLang ≠ "auto" then (text, cache, 0)
  else if trimStr text = "" then (text, cache, 0)
  else
    match cacheGet cache (cacheKeyOf text fromLang toLang) with
    | some v => (restoreFormatting text v, cache, 0)
    | none =>
      if normalizeLanguageCode fromLang = "auto" then
        if detectLanguage env (trimStr text) = normalizeLanguageCode toLang then (text, cache, 1)
        else translateMain env cache text fromLang toLang (detectLanguage env (trimStr text)) 1
      else translateMain env cache text fromLang toLang (normalizeLanguageCode fromLang) 0

/-! ### The exception-level embedding

`translateChunkGoE` is `translateChunk` with the `try`/`catch` of the
source made explicit in the `Except` monad: a throwing provider method
surfaces as an `.error` outcome which the `catch` converts into advancing
to the next method.  `translateTextE` threads the chunk loop through
`Except`; its own `catch` block (`throw new Error('Ошибка перевода: ...')`)
re-throws whatever escapes the chunk loop. -/

def translateChunkGoE : List (Except String (Option String)) → String → String → String → Nat → Except String (String × Nat)
  | [], text, fromLang, toLang, n => .ok (dictionaryTranslation text fromLang toLang, n)
  | o :: rest, text, fromLang, toLang, n =>
    match o with
    | .error _ => translateChunkGoE rest text fromLang toLang (n + 1)
    | .ok r =>
      if isValidTranslation r text fromLang toLang then .ok (r.getD "", n + 1)
      else translateChunkGoE rest text fromLang toLang (n + 1)

def processChunksGoE (env : Env) : Nat → List String → String → String → Except String (List String × Nat)
  | _, [], _, _ => .ok ([], 0)
  | i, chunk :: rest, fromLang, toLang =>
    if trimStr chunk = "" then
      match processChunksGoE env (i + 1) rest fromLang toLang with
      | .error e => .error e
      | .ok pr => .ok (chunk :: pr.1, pr.2)
    else
      match translateChunkGoE (envOuts env i) (trimStr chunk) fromLang toLang 0 with
      | .error e => .error e
      | .ok cr =>
        match processChunksGoE env (i + 1) rest fromLang toLang with
        | .error e => .error e
        | .ok pr => .ok (cr.1 :: pr.1, cr.2 + pr.2)

def translateMainE (env : Env) (cache : Cache) (text fromLang toLang detectedFrom : String) (base : Nat) : Except String (String × Cache × Nat) :=
  let nTo := normalizeLanguageCode toLang
  let chunks := intelligentTextSplit (trimStr text)
  match processChunksGoE env 0 chunks detectedFrom nTo with
  | .error e => .error ("Ошибка перевода: " ++ e)
  | .ok pr =>
    let finalResult := postProcessTranslation (reconstructText chunks pr.1) detectedFrom nTo
    .ok (restoreFormatting text finalResult,
         cacheStore cache (cacheKeyOf text fromLang toLang) finalResult,
         base + pr.2)

def translateTextE (env : Env) (cache : Cache) (text fromLang toLang : String) : Except String (String × Cache × Nat) :=
  if fromLang = toLang ∧ fromLang ≠ "auto" then .ok (text, cache, 0)
  else if trimStr text = "" then .ok (text, cache, 0)
  else
    match cacheGet cache (cacheKeyOf text fromLang toLang) with
    | some v => .ok (restoreFormatting text v, cache, 0)
    | none =>
      if normalizeLanguageCode fromLang = "auto" then
        if detectLanguage env (trimStr text) = normalizeLanguageCode toLang then .ok (text, cache, 1)
        else translateMainE env cache text fromLang toLang (detectLanguage env (trimStr text)) 1
      else translateMainE env cache text fromLang toLang (normalizeLanguageCode fromLang) 0

/-- `chunkAttemptFails o text f t` says the provider outcome `o` does not
yield a valid translation of `text`: either the method threw, or its result
(`null` or a candidate) is rejected by the validator. -/
def chunkAttemptFails (o : Except String (Option String)) (text fromLang toLang : String) : Bool :=
  match o with
  | .error _ => true
  | .ok r => !isValidTranslation r text fromLang toLang

/-! ## Theorems -/

set_option maxRecDepth 16384

/-- Claim C7: sentence splitting applied to
`"Dr. Smith went home. He was tired."` produces boundaries only at
`"home."` and `"tired."` — the two sentences come out as
`"Dr. Smith went home"` and `"He was tired"` (terminators are consumed by
the split), with no break after the abbreviation `"Dr."`. -/
theorem splitIntoSentences_abbreviation_safety :
    splitIntoSentences "Dr. Smith went home. He was tired."
      = ["Dr. Smith went home", "He was tired"] := by
  decide

/-- Claim C10: the cache key `trimmedText|fromLang|toLang` uses the raw
language codes and is not injective — the two distinct requests
`("a|en", "en", "ru")` and `("a", "en|en", "ru")` share a key, and after the
second request is translated and cached (all providers failing), the first
request is answered from the cache (zero external calls) with the cached
translation of the other request. -/
theorem cacheKey_collision :
    cacheKeyOf "a|en" "en" "ru" = cacheKeyOf "a" "en|en" "ru"
    ∧ ("a|en", "en", "ru") ≠ (("a", "en|en", "ru") : String × String × String)
    ∧ (translateText allFailEnv
         (translateText allFailEnv [] "a" "en|en" "ru").2.1 "a|en" "en" "ru").1
        = (translateText allFailEnv [] "a" "en|en" "ru").1
    ∧ (translateText allFailEnv
         (translateText allFailEnv [] "a" "en|en" "ru").2.1 "a|en" "en" "ru").2.2
        = 0 := by
  decide

/-- A 602-character input: two 300-character paragraphs separated by a
blank line. -/
def c4text : String :=
  String.mk (List.replicate 300 'a' ++ '\n' :: '\n' :: List.replicate 300 'b')

/-- Claim C4, counterexample: for the over-budget input `c4text` the
concatenation of the chunks returned by `intelligentTextSplit` does NOT
reproduce the input — the blank-line separator consumed by the paragraph
split is returned with no chunk. -/
theorem intelligentTextSplit_roundtrip_cx :
    c4text.length > 500
    ∧ String.join (intelligentTextSplit c4text) ≠ c4text := by
  decide

/-- Claim C4, amended: for every input within the 500-character chunk
budget `intelligentTextSplit` returns exactly one chunk equal to that
input; for inputs over the budget the split consumes the blank-line
paragraph separators and sentence-ending punctuation, so the concatenation
of the returned chunks need not reproduce the input
(`intelligentTextSplit_roundtrip_cx`). -/
theorem intelligentTextSplit_single_chunk (text : String)
    (h : text.length ≤ 500) : intelligentTextSplit text = [text] := by
  unfold intelligentTextSplit MAX_CHUNK_SIZE
  rw [if_pos h]

theorem intelligentTextSplit_single_chunk_witness :
    "hello".length ≤ 500 ∧ intelligentTextSplit "hello" = ["hello"] :=
  ⟨by decide, intelligentTextSplit_single_chunk "hello" (by decide)⟩

/-- Claim C5, counterexample: translating `"  Hello.\n\nWorld.  "` end to
end (all providers failing, so the text is echoed by the dictionary
fallback) yields `"  Hello. World.  "` — the two leading and two trailing
spaces are preserved, but the blank line between the sentences is collapsed
to a single space by `removeDuplicateSentences`, so the returned string
contains no newline at all. -/
theorem restoreFormatting_blankline_cx :
    (translateText allFailEnv [] "  Hello.\n\nWorld.  " "en" "ru").1
      = "  Hello. World.  "
    ∧ ((translateText allFailEnv [] "  Hello.\n\nWorld.  " "en" "ru").1.data.contains '\n')
        = false := by
  decide

/-- Modelled from the spec: the Hiragana and Katakana unicode blocks
(U+3040–U+309F and U+30A0–U+30FF), the "Hiragana/Katakana" script class
named by the specification's description of the local detector.  The code
itself matches only the seven literal characters of
`isJapaneseClassChar`. -/
def specKanaChar (c : Char) : Bool :=
  (0x3040 ≤ c.toNat && c.toNat ≤ 0x309F) || (0x30A0 ≤ c.toNat && c.toNat ≤ 0x30FF)

def specKanaCount (text : String) : Nat :=
  (text.data.filter specKanaChar).length

/-- Claim C8, counterexample: `"こんにちは"` consists entirely (100% > 30%)
of Hiragana characters, yet `detectLanguageLocally` returns `"en"`, not
`"ja"` — the source's `japanese` regex `[ひらがなカタカナ]` is a character
class over seven literal kana characters, none of which occur in this
text. -/
theorem detectLanguageLocally_kana_cx :
    10 * specKanaCount "こんにちは" > 3 * totalNonWs "こんにちは"
    ∧ detectLanguageLocally "こんにちは" = "en"
    ∧ detectLanguageLocally "こんにちは" ≠ "ja" := by
  decide

/-- Claim C6: the validator rejects every candidate that equals the
original case-insensitively (on the trimmed, lowercased forms) unless the
original is at most 3 characters long, matches the capitalized-word
pattern `^[A-Z][a-z]*$`, or is purely numeric; in particular the echo
`"cat"`/`"cat"` is accepted (3 characters) and the echo
`"translate this sentence"` is rejected. -/
theorem isValidTranslation_echo_rule :
    (∀ candidate original fromLang toLang : String,
        toLowerStr (trimStr candidate) = toLowerStr (trimStr original) →
        ¬ original.length ≤ 3 →
        isCapitalizedWord original = false →
        isNumericStr original = false →
        isValidTranslation (some candidate) original fromLang toLang = false)
    ∧ isValidTranslation (some "cat") "cat" "en" "ru" = true
    ∧ isValidTranslation (some "translate this sentence") "translate this sentence" "en" "ru"
        = false := by
  refine ⟨?_, by decide, by decide⟩
  intro candidate original fromLang toLang heq hlen hcap hnum
  simp only [isValidTranslation]
  by_cases htr : trimStr candidate = ""
  · simp [htr]
  · rw [if_neg htr, if_pos heq]
    simp [decide_eq_false hlen, hcap, hnum]

theorem isValidTranslation_echo_rule_witness :
    toLowerStr (trimStr "abcd x") = toLowerStr (trimStr "ABCD X")
    ∧ isValidTranslation (some "abcd x") "ABCD X" "en" "ru" = false :=
  ⟨by decide,
   isValidTranslation_echo_rule.1 "abcd x" "ABCD X" "en" "ru"
     (by decide) (by decide) (by decide) (by decide)⟩

/-- Claim C9: `dictionaryTranslation` looks the trimmed, lowercased text up
in the static table; on a miss it returns the original text unchanged (it
is total, hence never throws); on a hit it returns the table entry, with
its first letter uppercased exactly when the original's first character is
in uppercase form (`charUpper c = c`).  Concretely, `"Hello"` → `"Привет"`,
`"hello"` → `"привет"`, and the absent phrase `"XYZ ABC"` is echoed. -/
theorem dictionaryTranslation_behavior :
    (∀ text fromLang toLang : String,
        dictLookup (trimStr (toLowerStr text)) toLang = none →
        dictionaryTranslation text fromLang toLang = text)
    ∧ (∀ text fromLang toLang tr : String,
        dictLookup (trimStr (toLowerStr text)) toLang = some tr → tr ≠ "" →
        dictionaryTranslation text fromLang toLang =
          (match text.data with
           | c :: _ => if charUpper c = c then capFirstStr tr else tr
           | [] => tr))
    ∧ dictionaryTranslation "Hello" "en" "ru" = "Привет"
    ∧ dictionaryTranslation "hello" "en" "ru" = "привет"
    ∧ dictionaryTranslation "XYZ ABC" "en" "ru" = "XYZ ABC" := by
  refine ⟨?_, ?_, by decide, by decide, by decide⟩
  · intro text fromLang toLang h
    simp only [dictionaryTranslation]
    rw [h]
  · intro text fromLang toLang tr h htr
    simp only [dictionaryTranslation]
    rw [h]
    simp [htr]

/-! ### Helper lemmas about the cache operations -/

theorem cacheGet_mapSet_self (c : Cache) (k v : String) :
    cacheGet (mapSet c k v) k = some v := by
  induction c with
  | nil => simp [mapSet, cacheGet]
  | cons p rest ih =>
    obtain ⟨k', v'⟩ := p
    by_cases h : k' = k
    · simp [mapSet, h, cacheGet]
    · simp [mapSet, h, cacheGet, ih]

theorem cacheGet_mapDelete_ne (c : Cache) (dk k : String) (h : dk ≠ k) :
    cacheGet (mapDelete c dk) k = cacheGet c k := by
  induction c with
  | nil => rfl
  | cons p rest ih =>
    obtain ⟨k', v'⟩ := p
    by_cases h1 : k' = dk
    · subst h1
      simp [mapDelete, cacheGet, h]
    · simp [mapDelete, h1, cacheGet]
      by_cases h2 : k' = k <;> simp [h2, ih]

theorem cacheFirstKey_mapSet (c : Cache) (k v : String) (h : c ≠ []) :
    cacheFirstKey (mapSet c k v) = cacheFirstKey c := by
  cases c with
  | nil => exact absurd rfl h
  | cons p rest =>
    obtain ⟨k', v'⟩ := p
    by_cases h1 : k' = k <;> simp [mapSet, h1, cacheFirstKey]

theorem firstKey_ne_of_get_none (c : Cache) (k : String) (hc : c ≠ [])
    (h : cacheGet c k = none) : cacheFirstKey c ≠ k := by
  cases c with
  | nil => exact absurd rfl hc
  | cons p rest =>
    obtain ⟨k', v'⟩ := p
    intro hk
    simp [cacheFirstKey] at hk
    subst hk
    simp [cacheGet] at h

theorem cacheGet_cacheStore_self (c : Cache) (k v : String) (h : cacheGet c k = none) :
    cacheGet (cacheStore c k v) k = some v := by
  unfold cacheStore
  by_cases hl : (mapSet c k v).length > 100
  · rw [if_pos hl]
    have hc : c ≠ [] := by
      intro hnil
      subst hnil
      simp [mapSet] at hl
    rw [cacheFirstKey_mapSet c k v hc,
        cacheGet_mapDelete_ne _ _ _ (firstKey_ne_of_get_none c k hc h),
        cacheGet_mapSet_self]
  · rw [if_neg hl, cacheGet_mapSet_self]

theorem length_mapSet_le (c : Cache) (k v : String) :
    (mapSet c k v).length ≤ c.length + 1 := by
  induction c with
  | nil => simp [mapSet]
  | cons p rest ih =>
    obtain ⟨k', v'⟩ := p
    by_cases h : k' = k
    · simp [mapSet, h]
    · simp [mapSet, h]
      omega

theorem length_cacheStore_le (c : Cache) (k v : String) (h : c.length ≤ 100) :
    (cacheStore c k v).length ≤ 100 := by
  unfold cacheStore
  have hle := length_mapSet_le c k v
  by_cases hl : (mapSet c k v).length > 100
  · rw [if_pos hl]
    cases hms : mapSet c k v with
    | nil => rw [hms] at hl; simp at hl
    | cons p rest =>
      obtain ⟨k', v'⟩ := p
      rw [hms] at hle
      simp at hle
      simp [cacheFirstKey, mapDelete]
      omega
  · rw [if_neg hl]
    omega

/-- Every run of the main translation path returns a formatting-restored
result and stores exactly the postprocessed text under the cache key. -/
theorem translateMain_shape (env : Env) (c : Cache) (text fromLang toLang d : String) (b : Nat) :
    ∃ fr n, translateMain env c text fromLang toLang d b
      = (restoreFormatting text fr, cacheStore c (cacheKeyOf text fromLang toLang) fr, n) :=
  ⟨_, _, rfl⟩

theorem translateMain_cache_bounded (env : Env) (c : Cache) (text fromLang toLang d : String)
    (b : Nat) (h : c.length ≤ 100) :
    ((translateMain env c text fromLang toLang d b).2.1).length ≤ 100 := by
  obtain ⟨fr, n, hm⟩ := translateMain_shape env c text fromLang toLang d b
  rw [hm]
  exact length_cacheStore_le _ _ _ h

/-! ### Claim C2 -/

/-- Claim C2: if a `translateText` call has completed and its cache entry is
(still) present afterwards, then repeating the identical
`(text, fromLang, toLang)` request performs zero provider or detector
calls, returns the same result string as the first call, and leaves the
cache unchanged. -/
theorem translateText_cache_memoization (env : Env) (c : Cache) (text fromLang toLang v : String)
    (h : cacheGet (translateText env c text fromLang toLang).2.1
           (cacheKeyOf text fromLang toLang) = some v) :
    translateText env (translateText env c text fromLang toLang).2.1 text fromLang toLang
      = ((translateText env c text fromLang toLang).1,
         (translateText env c text fromLang toLang).2.1, 0) := by
  by_cases hg : (fromLang = toLang ∧ fromLang ≠ "auto")
  · have h1 : translateText env c text fromLang toLang = (text, c, 0) := by
      unfold translateText
      rw [if_pos hg]
    rw [h1]
    exact h1
  · by_cases htrim : trimStr text = ""
    · have h1 : translateText env c text fromLang toLang = (text, c, 0) := by
        unfold translateText
        rw [if_neg hg, if_pos htrim]
      rw [h1]
      exact h1
    · cases hcg : cacheGet c (cacheKeyOf text fromLang toLang) with
      | some v0 =>
        have h1 : translateText env c text fromLang toLang
            = (restoreFormatting text v0, c, 0) := by
          unfold translateText
          rw [if_neg hg, if_neg htrim, hcg]
        rw [h1]
        exact h1
      | none =>
        by_cases hauto : normalizeLanguageCode fromLang = "auto"
        · by_cases hd : detectLanguage env (trimStr text) = normalizeLanguageCode toLang
          · have h1 : translateText env c text fromLang toLang = (text, c, 1) := by
              unfold translateText
              rw [if_neg hg, if_neg htrim, hcg, if_pos hauto, if_pos hd]
            rw [h1] at h
            rw [hcg] at h
            exact absurd h (by simp)
          · obtain ⟨fr, n, hm⟩ := translateMain_shape env c text fromLang toLang
              (detectLanguage env (trimStr text)) 1
            have h1 : translateText env c text fromLang toLang
                = (restoreFormatting text fr,
                   cacheStore c (cacheKeyOf text fromLang toLang) fr, n) := by
              unfold translateText
              rw [if_neg hg, if_neg htrim, hcg, if_pos hauto, if_neg hd, hm]
            rw [h1]
            unfold translateText
            rw [if_neg hg, if_neg htrim, cacheGet_cacheStore_self c _ fr hcg]
        · obtain ⟨fr, n, hm⟩ := translateMain_shape env c text fromLang toLang
            (normalizeLanguageCode fromLang) 0
          have h1 : translateText env c text fromLang toLang
              = (restoreFormatting text fr,
                 cacheStore c (cacheKeyOf text fromLang toLang) fr, n) := by
            unfold translateText
            rw [if_neg hg, if_neg htrim, hcg, if_neg hauto, hm]
          rw [h1]
          unfold translateText
          rw [if_neg hg, if_neg htrim, cacheGet_cacheStore_self c _ fr hcg]

theorem translateText_cache_memoization_witness :
    cacheGet (translateText allFailEnv [] "hi" "en" "ru").2.1
        (cacheKeyOf "hi" "en" "ru") = some "Hi"
    ∧ translateText allFailEnv (translateText allFailEnv [] "hi" "en" "ru").2.1 "hi" "en" "ru"
        = ((translateText allFailEnv [] "hi" "en" "ru").1,
           (translateText allFailEnv [] "hi" "en" "ru").2.1, 0) :=
  ⟨by decide,
   translateText_cache_memoization allFailEnv [] "hi" "en" "ru" "Hi" (by decide)⟩

/-! ### Claim C3 -/

/-- `101` successive insertions through the store-and-bound sequence of
`translateText`, starting from the empty cache. -/
def cacheInsertAll (ps : List (String × String)) (c : Cache) : Cache :=
  ps.foldl (fun acc p => cacheStore acc p.1 p.2) c

theorem mapSet_of_not_mem (c : Cache) (k v : String) (h : k ∉ c.map Prod.fst) :
    mapSet c k v = c ++ [(k, v)] := by
  induction c with
  | nil => rfl
  | cons p rest ih =>
    obtain ⟨k', v'⟩ := p
    simp only [List.map_cons, List.mem_cons, not_or] at h
    have hne : ¬ k' = k := fun he => h.1 he.symm
    simp [mapSet, hne, ih h.2]

theorem cacheGet_eq_none_of_not_mem (c : Cache) (k : String) (h : k ∉ c.map Prod.fst) :
    cacheGet c k = none := by
  induction c with
  | nil => rfl
  | cons p rest ih =>
    obtain ⟨k', v'⟩ := p
    simp only [List.map_cons, List.mem_cons, not_or] at h
    have hne : ¬ k' = k := fun he => h.1 he.symm
    simp [cacheGet, hne, ih h.2]

theorem cacheGet_of_mem (c : Cache) (hnd : (c.map Prod.fst).Nodup) :
    ∀ p ∈ c, cacheGet c p.1 = some p.2 := by
  induction c with
  | nil => intro p hp; cases hp
  | cons q rest ih =>
    obtain ⟨k', v'⟩ := q
    simp only [List.map_cons, List.nodup_cons] at hnd
    intro p hp
    cases hp with
    | head => simp [cacheGet]
    | tail _ hmem =>
      have h1 : ¬ k' = p.1 := fun he =>
        hnd.1 (he ▸ List.mem_map_of_mem Prod.fst hmem)
      simp [cacheGet, h1]
      exact ih hnd.2 p hmem

/-- While the number of distinct keys stays within capacity, the cache is
exactly the insertion sequence, in insertion order. -/
theorem cacheInsertAll_under_capacity (ps : List (String × String))
    (hnd : (ps.map Prod.fst).Nodup) (hlen : ps.length ≤ 100) :
    cacheInsertAll ps [] = ps := by
  induction ps using List.reverseRecOn with
  | nil => rfl
  | append_singleton qs p ih =>
    rw [List.map_append] at hnd
    have hnd' : (qs.map Prod.fst).Nodup := (List.nodup_append.mp hnd).1
    have hnotmem : p.1 ∉ qs.map Prod.fst := by
      intro hmem
      exact (List.nodup_append.mp hnd).2.2 hmem (by simp)
    have hq : qs.length ≤ 99 := by
      simp at hlen
      omega
    unfold cacheInsertAll at *
    rw [List.foldl_append, ih hnd' (by omega)]
    simp only [List.foldl_cons, List.foldl_nil]
    unfold cacheStore
    rw [mapSet_of_not_mem qs p.1 p.2 hnotmem]
    rw [if_neg (by simp; omega)]

/-- Inserting the 101st distinct key evicts exactly the first-inserted
entry: the resulting cache is the insertion sequence minus its head. -/
theorem fifo_eviction (k0 v0 : String) (rest : List (String × String))
    (hnd : (((k0, v0) :: rest).map Prod.fst).Nodup) (hlen : rest.length = 100) :
    cacheInsertAll ((k0, v0) :: rest) [] = rest := by
  rcases List.eq_nil_or_concat rest with rfl | ⟨mid, plast, hconcat⟩
  · simp at hlen
  · rw [List.concat_eq_append] at hconcat
    subst hconcat
    have hps : (k0, v0) :: (mid ++ [plast]) = ((k0, v0) :: mid) ++ [plast] := by simp
    have hnd2 : ((((k0, v0) :: mid) ++ [plast]).map Prod.fst).Nodup := by
      rw [← hps]
      exact hnd
    rw [List.map_append] at hnd2
    have hnd' : (((k0, v0) :: mid).map Prod.fst).Nodup := (List.nodup_append.mp hnd2).1
    have hnotmem : plast.1 ∉ ((k0, v0) :: mid).map Prod.fst := by
      intro hmem
      exact (List.nodup_append.mp hnd2).2.2 hmem (by simp)
    have hmidlen : mid.length = 99 := by
      simp at hlen
      omega
    unfold cacheInsertAll
    rw [hps, List.foldl_append]
    rw [show ((k0, v0) :: mid).foldl (fun acc p => cacheStore acc p.1 p.2) [] =
          cacheInsertAll ((k0, v0) :: mid) [] from rfl]
    rw [cacheInsertAll_under_capacity _ hnd' (by simp [hmidlen])]
    simp only [List.foldl_cons, List.foldl_nil]
    unfold cacheStore
    rw [mapSet_of_not_mem _ _ _ hnotmem]
    rw [if_pos (by simp [hmidlen])]
    simp [cacheFirstKey, mapDelete]

/-- Claim C3: across any `translateText` call the cache keeps at most 100
entries, and the eviction policy is FIFO by insertion order: after
inserting 101 distinct fingerprints through the store-and-bound sequence
the first-inserted entry is no longer retrievable while the 100 most
recently inserted all are (reads never move entries, since a cache hit
returns without touching the map). -/
theorem translationCache_bound_and_fifo :
    (∀ (env : Env) (c : Cache) (text fromLang toLang : String), c.length ≤ 100 →
        ((translateText env c text fromLang toLang).2.1).length ≤ 100)
    ∧ (∀ (k0 v0 : String) (rest : List (String × String)),
        (((k0, v0) :: rest).map Prod.fst).Nodup → rest.length = 100 →
        cacheGet (cacheInsertAll ((k0, v0) :: rest) []) k0 = none
        ∧ ∀ p ∈ rest, cacheGet (cacheInsertAll ((k0, v0) :: rest) []) p.1 = some p.2) := by
  constructor
  · intro env c text fromLang toLang h
    unfold translateText
    split
    · simpa
    · split
      · simpa
      · split
        · simpa
        · split
          · split
            · simpa
            · exact translateMain_cache_bounded _ _ _ _ _ _ _ h
          · exact translateMain_cache_bounded _ _ _ _ _ _ _ h
  · intro k0 v0 rest hnd hlen
    rw [fifo_eviction k0 v0 rest hnd hlen]
    simp only [List.map_cons, List.nodup_cons] at hnd
    constructor
    · exact cacheGet_eq_none_of_not_mem rest k0 hnd.1
    · exact cacheGet_of_mem rest hnd.2

/-- The 100 fingerprints inserted after the first one in the witness. -/
def fifoRest : List (String × String) :=
  (List.range 100).map fun i => (Nat.repr (i + 1), "v")

theorem translationCache_bound_and_fifo_witness :
    ((([] : Cache).length ≤ 100)
      ∧ ((translateText allFailEnv [] "ok go" "en" "de").2.1).length ≤ 100)
    ∧ cacheGet (cacheInsertAll (("0", "v") :: fifoRest) []) "0" = none
    ∧ cacheGet (cacheInsertAll (("0", "v") :: fifoRest) []) "100" = some "v" :=
  ⟨⟨by decide, translationCache_bound_and_fifo.1 allFailEnv [] "ok go" "en" "de" (by decide)⟩,
   (translationCache_bound_and_fifo.2 "0" "v" fifoRest (by decide) (by decide)).1,
   (translationCache_bound_and_fifo.2 "0" "v" fifoRest (by decide) (by decide)).2
     ("100", "v") (by decide)⟩

/-! ### Claim C1 -/

theorem translateChunkGoE_ok (outs : List (Except String (Option String))) (t f l : String) :
    ∀ n, translateChunkGoE outs t f l n = .ok (translateChunkGo outs t f l n) := by
  induction outs with
  | nil => intro n; rfl
  | cons o rest ih =>
    intro n
    cases o with
    | error e => simp [translateChunkGoE, translateChunkGo, ih]
    | ok r =>
      by_cases h : isValidTranslation r t f l <;>
        simp [translateChunkGoE, translateChunkGo, h, ih]

theorem processChunksGoE_ok (env : Env) (chunks : List String) (f l : String) :
    ∀ i, processChunksGoE env i chunks f l = .ok (processChunksGo env i chunks f l) := by
  induction chunks with
  | nil => intro i; rfl
  | cons chunk rest ih =>
    intro i
    by_cases h : trimStr chunk = ""
    · simp [processChunksGoE, processChunksGo, h, ih]
    · simp [processChunksGoE, processChunksGo, h, ih, translateChunkGoE_ok, translateChunk]

theorem translateMainE_ok (env : Env) (c : Cache) (text fromLang toLang d : String) (b : Nat) :
    translateMainE env c text fromLang toLang d b
      = .ok (translateMain env c text fromLang toLang d b) := by
  simp only [translateMainE, translateMain, processChunksGoE_ok]

theorem translateTextE_ok (env : Env) (c : Cache) (text fromLang toLang : String) :
    translateTextE env c text fromLang toLang
      = Except.ok (translateText env c text fromLang toLang) := by
  unfold translateTextE translateText
  by_cases hg : (fromLang = toLang ∧ fromLang ≠ "auto")
  · rw [if_pos hg, if_pos hg]
  · rw [if_neg hg, if_neg hg]
    by_cases htrim : trimStr text = ""
    · rw [if_pos htrim, if_pos htrim]
    · rw [if_neg htrim, if_neg htrim]
      cases hcg : cacheGet c (cacheKeyOf text fromLang toLang) with
      | some v => simp
      | none =>
        simp only []
        by_cases hauto : normalizeLanguageCode fromLang = "auto"
        · rw [if_pos hauto, if_pos hauto]
          by_cases hd : detectLanguage env (trimStr text) = normalizeLanguageCode toLang
          · rw [if_pos hd, if_pos hd]
          · rw [if_neg hd, if_neg hd, translateMainE_ok]
        · rw [if_neg hauto, if_neg hauto, translateMainE_ok]

theorem translateChunkGo_all_fail (outs : List (Except String (Option String)))
    (t f l : String) (h : ∀ o ∈ outs, chunkAttemptFails o t f l = true) :
    ∀ n, (translateChunkGo outs t f l n).1 = dictionaryTranslation t f l := by
  revert h
  induction outs with
  | nil => intro h n; rfl
  | cons o rest ih =>
    intro h n
    have hrest : ∀ o ∈ rest, chunkAttemptFails o t f l = true :=
      fun o hm => h o (by simp [hm])
    cases o with
    | error e =>
      simp only [translateChunkGo]
      exact ih hrest (n + 1)
    | ok r =>
      have hv : isValidTranslation r t f l = false := by
        simpa [chunkAttemptFails] using h (.ok r) (by simp)
      simp only [translateChunkGo, hv]
      simp
      exact ih hrest (n + 1)

/-- Claim C1: `translateText` never throws or rejects.  The exception-level
embedding always returns `.ok` with the value of the total function (every
throwing provider outcome is caught inside `translateChunk` by advancing to
the next method); when every provider attempt throws or is rejected by the
validator, the chunk is answered by the dictionary fallback; and on a
dictionary miss that fallback echoes its input, so the caller always
receives a string. -/
theorem translateText_never_throws :
    (∀ (env : Env) (cache : Cache) (text fromLang toLang : String),
        translateTextE env cache text fromLang toLang
          = Except.ok (translateText env cache text fromLang toLang))
    ∧ (∀ (outs : List (Except String (Option String))) (text fromLang toLang : String),
        (∀ o ∈ outs, chunkAttemptFails o text fromLang toLang = true) →
        (translateChunk outs text fromLang toLang).1
          = dictionaryTranslation text fromLang toLang)
    ∧ (∀ text fromLang toLang : String,
        dictLookup (trimStr (toLowerStr text)) toLang = none →
        dictionaryTranslation text fromLang toLang = text) := by
  refine ⟨translateTextE_ok, ?_, ?_⟩
  · intro outs text fromLang toLang h
    exact translateChunkGo_all_fail outs text fromLang toLang h 0
  · intro text fromLang toLang h
    simp only [dictionaryTranslation]
    rw [h]

theorem translateText_never_throws_witness :
    translateTextE allFailEnv [] "good morning" "en" "fr"
      = Except.ok (translateText allFailEnv [] "good morning" "en" "fr")
    ∧ (translateChunk [Except.error "x", Except.ok none, Except.ok (some "good morning")]
         "good morning" "en" "fr").1
        = dictionaryTranslation "good morning" "en" "fr"
    ∧ dictionaryTranslation "good morning" "en" "fr" = "good morning" :=
  ⟨translateText_never_throws.1 allFailEnv [] "good morning" "en" "fr",
   translateText_never_throws.2.1
     [Except.error "x", Except.ok none, Except.ok (some "good morning")]
     "good morning" "en" "fr" (by decide),
   translateText_never_throws.2.2 "good morning" "en" "fr" (by decide)⟩

theorem dictionaryTranslation_behavior_witness :
    dictLookup (trimStr (toLowerStr "bonjour")) "ru" = none
    ∧ dictionaryTranslation "bonjour" "en" "ru" = "bonjour"
    ∧ dictLookup (trimStr (toLowerStr "Hello")) "ru" = some "привет"
    ∧ dictionaryTranslation "Hello" "en" "ru" =
        (match "Hello".data with
         | c :: _ => if charUpper c = c then capFirstStr "привет" else "привет"
         | [] => "привет") :=
  ⟨by decide, dictionaryTranslation_behavior.1 "bonjour" "en" "ru" (by decide),
   by decide,
   dictionaryTranslation_behavior.2.1 "Hello" "en" "ru" "привет" (by decide) (by decide)⟩

/-! ### Claim C5: edge-whitespace preservation

The decomposition `s = leadingWsStr s ++ trimStr s ++ trailingWsStr s`
(for strings with a nonempty trim) is proved through Mathlib's
`List.rdropWhile` and `List.rtakeWhile`. -/

theorem takeWhile_append_of_exists {α : Type} (p : α → Bool) (u w : List α)
    (h : ∃ x ∈ u, p x = false) : (u ++ w).takeWhile p = u.takeWhile p := by
  induction u with
  | nil =>
    obtain ⟨x, hx, _⟩ := h
    cases hx
  | cons c cs ih =>
    by_cases hc : p c
    · simp only [List.cons_append, List.takeWhile_cons, hc, if_true]
      obtain ⟨x, hx, hpx⟩ := h
      cases hx with
      | head => rw [hc] at hpx; cases hpx
      | tail _ hm => rw [ih ⟨x, hm, hpx⟩]
    · simp [List.takeWhile_cons, hc]

theorem rdropWhile_append_rtakeWhile {α : Type} (p : α → Bool) (l : List α) :
    l.rdropWhile p ++ l.rtakeWhile p = l := by
  rw [List.rdropWhile, List.rtakeWhile, ← List.reverse_append,
      List.takeWhile_append_dropWhile, List.reverse_reverse]

theorem dropWhile_head_false {α : Type} (p : α → Bool) (l : List α) (c : α) (rest : List α)
    (h : l.dropWhile p = c :: rest) : p c = false := by
  induction l with
  | nil => cases h
  | cons a as ih =>
    rw [List.dropWhile_cons] at h
    by_cases hp : p a = true
    · rw [if_pos hp] at h
      exact ih h
    · rw [if_neg hp] at h
      cases h
      simpa using hp

theorem trimChars_eq_rdropWhile (l : List Char) :
    trimChars l = (l.dropWhile isWs).rdropWhile isWs := rfl

theorem trailing_eq_rtakeWhile (l : List Char) :
    (l.reverse.takeWhile isWs).reverse = l.rtakeWhile isWs := rfl

theorem exists_not_ws_of_trim_ne_nil (l : List Char) (h : trimChars l ≠ []) :
    ∃ x ∈ l.dropWhile isWs, isWs x = false := by
  rw [trimChars_eq_rdropWhile] at h
  by_contra hall
  push_neg at hall
  refine h (List.rdropWhile_eq_nil_iff.mpr ?_)
  intro x hx
  have := hall x hx
  simpa using this

theorem rtakeWhile_eq_rtakeWhile_dropWhile (l : List Char) (h : trimChars l ≠ []) :
    l.rtakeWhile isWs = (l.dropWhile isWs).rtakeWhile isWs := by
  have hex : ∃ x ∈ (l.dropWhile isWs).reverse, isWs x = false := by
    obtain ⟨x, hx, hpx⟩ := exists_not_ws_of_trim_ne_nil l h
    exact ⟨x, List.mem_reverse.mpr hx, hpx⟩
  rw [List.rtakeWhile, List.rtakeWhile]
  conv_lhs => rw [← List.takeWhile_append_dropWhile (p := isWs) (l := l), List.reverse_append]
  rw [takeWhile_append_of_exists _ _ _ hex]

theorem trim_decomposition_chars (l : List Char) (h : trimChars l ≠ []) :
    l = l.takeWhile isWs ++ (trimChars l ++ (l.reverse.takeWhile isWs).reverse) := by
  conv_lhs => rw [← List.takeWhile_append_dropWhile (p := isWs) (l := l)]
  congr 1
  rw [trimChars_eq_rdropWhile, trailing_eq_rtakeWhile,
      rtakeWhile_eq_rtakeWhile_dropWhile l h]
  exact (rdropWhile_append_rtakeWhile isWs (l.dropWhile isWs)).symm

theorem trimChars_idempotent (l : List Char) : trimChars (trimChars l) = trimChars l := by
  rw [trimChars_eq_rdropWhile l]
  cases hb : (l.dropWhile isWs).rdropWhile isWs with
  | nil => rfl
  | cons c cs =>
    have hpre := List.rdropWhile_prefix isWs (l.dropWhile isWs)
    rw [hb] at hpre
    obtain ⟨t, ht⟩ := hpre
    have hc : isWs c = false := by
      have := dropWhile_head_false isWs l c (cs ++ t) ht.symm
      exact this
    rw [trimChars_eq_rdropWhile]
    rw [List.dropWhile_cons, hc]
    simp only [Bool.false_eq_true, if_false]
    rw [← hb, List.rdropWhile_idempotent]

theorem trimStr_idempotent (s : String) : trimStr (trimStr s) = trimStr s :=
  congrArg String.mk (trimChars_idempotent s.data)

theorem string_trim_decomposition (s : String) (h : trimStr s ≠ "") :
    s = leadingWsStr s ++ trimStr s ++ trailingWsStr s := by
  apply String.ext
  have hl : trimChars s.data ≠ [] := by
    intro hnil
    apply h
    unfold trimStr
    rw [hnil]
  have hd := trim_decomposition_chars s.data hl
  simp only [String.data_append, leadingWsStr, trimStr, trailingWsStr]
  rw [List.append_assoc]
  exact hd

/-- Claim C5, amended: for every request whose text has a nonempty trim,
the string returned by `translateText` is the leading-whitespace run of the
original input, followed by a fully trimmed core, followed by the original
trailing-whitespace run — the edge whitespace is reattached verbatim by
`restoreFormatting`.  (Interior blank lines are NOT preserved:
`restoreFormatting_blankline_cx`.) -/
theorem translateText_preserves_edge_whitespace (env : Env) (c : Cache) (text fromLang toLang : String)
    (h : trimStr text ≠ "") :
    ∃ core, (translateText env c text fromLang toLang).1
        = leadingWsStr text ++ core ++ trailingWsStr text
      ∧ trimStr core = core := by
  by_cases hg : (fromLang = toLang ∧ fromLang ≠ "auto")
  · have h1 : translateText env c text fromLang toLang = (text, c, 0) := by
      unfold translateText
      rw [if_pos hg]
    rw [h1]
    exact ⟨trimStr text, string_trim_decomposition text h, trimStr_idempotent text⟩
  · cases hcg : cacheGet c (cacheKeyOf text fromLang toLang) with
    | some v0 =>
      have h1 : translateText env c text fromLang toLang
          = (restoreFormatting text v0, c, 0) := by
        unfold translateText
        rw [if_neg hg, if_neg h, hcg]
      rw [h1]
      exact ⟨trimStr v0, rfl, trimStr_idempotent v0⟩
    | none =>
      by_cases hauto : normalizeLanguageCode fromLang = "auto"
      · by_cases hd : detectLanguage env (trimStr text) = normalizeLanguageCode toLang
        · have h1 : translateText env c text fromLang toLang = (text, c, 1) := by
            unfold translateText
            rw [if_neg hg, if_neg h, hcg, if_pos hauto, if_pos hd]
          rw [h1]
          exact ⟨trimStr text, string_trim_decomposition text h, trimStr_idempotent text⟩
        · obtain ⟨fr, n, hm⟩ := translateMain_shape env c text fromLang toLang
            (detectLanguage env (trimStr text)) 1
          have h1 : translateText env c text fromLang toLang
              = (restoreFormatting text fr,
                 cacheStore c (cacheKeyOf text fromLang toLang) fr, n) := by
            unfold translateText
            rw [if_neg hg, if_neg h, hcg, if_pos hauto, if_neg hd, hm]
          rw [h1]
          exact ⟨trimStr fr, rfl, trimStr_idempotent fr⟩
      · obtain ⟨fr, n, hm⟩ := translateMain_shape env c text fromLang toLang
          (normalizeLanguageCode fromLang) 0
        have h1 : translateText env c text fromLang toLang
            = (restoreFormatting text fr,
               cacheStore c (cacheKeyOf text fromLang toLang) fr, n) := by
          unfold translateText
          rw [if_neg hg, if_neg h, hcg, if_neg hauto, hm]
        rw [h1]
        exact ⟨trimStr fr, rfl, trimStr_idempotent fr⟩


theorem translateText_preserves_edge_whitespace_witness :
    trimStr "  Hello.\n\nWorld.  " ≠ ""
    ∧ ∃ core, (translateText allFailEnv [] "  Hello.\n\nWorld.  " "en" "ru").1
        = leadingWsStr "  Hello.\n\nWorld.  " ++ core ++ trailingWsStr "  Hello.\n\nWorld.  "
      ∧ trimStr core = core :=
  ⟨by decide,
   translateText_preserves_edge_whitespace allFailEnv [] "  Hello.\n\nWorld.  " "en" "ru"
     (by decide)⟩

/-! ### Claim C8: the local detector's priority order -/

theorem filter_length_mono {α : Type} (p q : α → Bool) (h : ∀ c, p c = true → q c = true) :
    ∀ l : List α, (l.filter p).length ≤ (l.filter q).length := by
  intro l
  induction l with
  | nil => simp
  | cons a as ih =>
    cases hp : p a with
    | false =>
      cases hq : q a with
      | false =>
        simp [List.filter_cons, hp, hq]
        omega
      | true =>
        simp [List.filter_cons, hp, hq]
        omega
    | true =>
      have hqa := h a hp
      simp [List.filter_cons, hp, hqa]
      omega

theorem script_not_ws (c : Char) (hws : isWs c = true) :
    isCyrillicChar c = false ∧ isChineseChar c = false ∧ isJapaneseClassChar c = false
    ∧ isKoreanChar c = false ∧ isArabicChar c = false := by
  simp only [isWs, Bool.or_eq_true, decide_eq_true_eq] at hws
  rcases hws with ((((h | h) | h) | h) | h) | h <;> subst h <;> decide

theorem count_le_totalNonWs (p : Char → Bool)
    (h : ∀ c, isWs c = true → p c = false) (text : String) :
    (text.data.filter p).length ≤ totalNonWs text := by
  unfold totalNonWs
  apply filter_length_mono
  intro c hc
  cases hwc : isWs c with
  | true =>
    rw [h c hwc] at hc
    cases hc
  | false => simp [hwc]

theorem countCyr_le_total (text : String) : countCyr text ≤ totalNonWs text :=
  count_le_totalNonWs _ (fun c h => (script_not_ws c h).1) text

theorem countChinese_le_total (text : String) : countChinese text ≤ totalNonWs text :=
  count_le_totalNonWs _ (fun c h => (script_not_ws c h).2.1) text

theorem countJap_le_total (text : String) : countJap text ≤ totalNonWs text :=
  count_le_totalNonWs _ (fun c h => (script_not_ws c h).2.2.1) text

theorem countKor_le_total (text : String) : countKor text ≤ totalNonWs text :=
  count_le_totalNonWs _ (fun c h => (script_not_ws c h).2.2.2.1) text

theorem countArab_le_total (text : String) : countArab text ≤ totalNonWs text :=
  count_le_totalNonWs _ (fun c h => (script_not_ws c h).2.2.2.2) text

theorem wordStage_all_zero (lowerText : String)
    (h : ∀ p ∈ commonWords, countWordMatches p.2 (wordsOf lowerText) = 0) :
    wordStageDetect lowerText = "en" := by
  unfold wordStageDetect
  have hgen : ∀ (langs : List (String × List String)),
      (∀ p ∈ langs, countWordMatches p.2 (wordsOf lowerText) = 0) →
      ∀ acc : Nat × String,
      (langs.foldl
        (fun (acc : Nat × String) p =>
          if countWordMatches p.2 (wordsOf lowerText) > acc.1 then
            (countWordMatches p.2 (wordsOf lowerText), p.1)
          else acc)
        acc) = acc := by
    intro langs
    induction langs with
    | nil => intro _ acc; rfl
    | cons q rest ih =>
      intro hq acc
      simp only [List.foldl_cons]
      rw [hq q (by simp)]
      simp only [gt_iff_lt, Nat.not_lt_zero, if_false]
      exact ih (fun p hp => hq p (by simp [hp])) acc
  rw [hgen commonWords h (0, "en")]

/-- Claim C8, amended: the script stage of `detectLanguageLocally` checks
the classes in the fixed iteration order Cyrillic, (Latin: no return case),
CJK, the literal-kana class, Hangul, Arabic, returning the first whose
count exceeds 30% of the non-whitespace characters; the `japanese` class
counts only the seven literal characters of `[ひらがなカタカナ]`, not the kana
ranges (`detectLanguageLocally_kana_cx`); and when no script ratio, no
diacritic marker and no stop word matches, the result is `"en"`. -/
theorem detectLanguageLocally_priority :
    (∀ text : String, 10 * countCyr text > 3 * totalNonWs text →
        detectLanguageLocally text = "ru")
    ∧ (∀ text : String, ¬ 10 * countCyr text > 3 * totalNonWs text →
        10 * countChinese text > 3 * totalNonWs text →
        detectLanguageLocally text = "zh")
    ∧ (∀ text : String, ¬ 10 * countCyr text > 3 * totalNonWs text →
        ¬ 10 * countChinese text > 3 * totalNonWs text →
        10 * countJap text > 3 * totalNonWs text →
        detectLanguageLocally text = "ja")
    ∧ (∀ text : String, ¬ 10 * countCyr text > 3 * totalNonWs text →
        ¬ 10 * countChinese text > 3 * totalNonWs text →
        ¬ 10 * countJap text > 3 * totalNonWs text →
        10 * countKor text > 3 * totalNonWs text →
        detectLanguageLocally text = "ko")
    ∧ (∀ text : String, ¬ 10 * countCyr text > 3 * totalNonWs text →
        ¬ 10 * countChinese text > 3 * totalNonWs text →
        ¬ 10 * countJap text > 3 * totalNonWs text →
        ¬ 10 * countKor text > 3 * totalNonWs text →
        10 * countArab text > 3 * totalNonWs text →
        detectLanguageLocally text = "ar")
    ∧ (∀ text : String, totalNonWs text ≠ 0 →
        ¬ 10 * countCyr text > 3 * totalNonWs text →
        ¬ 10 * countChinese text > 3 * totalNonWs text →
        ¬ 10 * countJap text > 3 * totalNonWs text →
        ¬ 10 * countKor text > 3 * totalNonWs text →
        ¬ 10 * countArab text > 3 * totalNonWs text →
        findMarker text = none →
        (∀ p ∈ commonWords, countWordMatches p.2 (wordsOf (toLowerStr text)) = 0) →
        detectLanguageLocally text = "en") := by
  refine ⟨?_, ?_, ?_, ?_, ?_, ?_⟩
  · intro text h1
    have hle := countCyr_le_total text
    have htot : ¬ (totalNonWs text = 0) := by intro h0; omega
    simp only [detectLanguageLocally]
    rw [if_neg htot, if_pos h1]
  · intro text h1 h2
    have hle := countChinese_le_total text
    have htot : ¬ (totalNonWs text = 0) := by intro h0; omega
    simp only [detectLanguageLocally]
    rw [if_neg htot, if_neg h1, if_pos h2]
  · intro text h1 h2 h3
    have hle := countJap_le_total text
    have htot : ¬ (totalNonWs text = 0) := by intro h0; omega
    simp only [detectLanguageLocally]
    rw [if_neg htot, if_neg h1, if_neg h2, if_pos h3]
  · intro text h1 h2 h3 h4
    have hle := countKor_le_total text
    have htot : ¬ (totalNonWs text = 0) := by intro h0; omega
    simp only [detectLanguageLocally]
    rw [if_neg htot, if_neg h1, if_neg h2, if_neg h3, if_pos h4]
  · intro text h1 h2 h3 h4 h5
    have hle := countArab_le_total text
    have htot : ¬ (totalNonWs text = 0) := by intro h0; omega
    simp only [detectLanguageLocally]
    rw [if_neg htot, if_neg h1, if_neg h2, if_neg h3, if_neg h4, if_pos h5]
  · intro text htot h1 h2 h3 h4 h5 hmark hwords
    simp only [detectLanguageLocally]
    rw [if_neg htot, if_neg h1, if_neg h2, if_neg h3, if_neg h4, if_neg h5, hmark]
    exact wordStage_all_zero (toLowerStr text) hwords


theorem detectLanguageLocally_priority_witness :
    detectLanguageLocally "привет как дела" = "ru"
    ∧ detectLanguageLocally "ひらがな" = "ja"
    ∧ detectLanguageLocally "zz qq" = "en" :=
  ⟨detectLanguageLocally_priority.1 "привет как дела" (by decide),
   detectLanguageLocally_priority.2.2.1 "ひらがな" (by decide) (by decide) (by decide),
   detectLanguageLocally_priority.2.2.2.2.2 "zz qq" (by decide) (by decide) (by decide)
     (by decide) (by decide) (by decide) (by decide) (by decide)⟩

end VenomTranslator
